import Mathlib

/-!
Shallow embedding of the code-review agent's tool pipeline (src/tools.ts)
and proofs about its change collection, commit-message synthesis, review
synthesis and report writing.

JavaScript strings are modelled as `List Char`; JS `includes`,
`startsWith`, `endsWith` become (decidable) infix/prefix/suffix tests.
The external simple-git interface is modelled by an explicit environment
(`GitEnv`); rejected promises become `Except.error` / `Option.none`.
-/

namespace MyAgent

/-- JS strings, modelled as lists of characters. -/
abbrev Str := List Char

/-- Characters of a Lean string literal, used to write JS string constants. -/
def str (s : String) : Str := s.data

/-- JS `String.prototype.includes`: substring containment. -/
def jsIncludes (s sub : Str) : Bool := decide (sub <:+: s)

/-- JS `String.prototype.startsWith`. -/
def jsStartsWith (s pre : Str) : Bool := decide (pre <+: s)

/-- JS `String.prototype.endsWith`. -/
def jsEndsWith (s suf : Str) : Bool := decide (suf <:+ s)

/-- The part of a path after its last `'/'`. -/
def afterLastSlash (p : Str) : Str := (p.reverse.takeWhile (fun c => c ≠ '/')).reverse

/-- Remove trailing `'/'` characters. -/
def dropTrailingSlashes (p : Str) : Str := (p.reverse.dropWhile (fun c => c = '/')).reverse

/-- Node `path.extname`: the extension of the last path component, i.e. the
part of that component from its last `'.'` on, empty when the component has
no dot, when its only dot is the leading character, or when it is `".."`. -/
def extname (p : Str) : Str :=
  let base := afterLastSlash p
  let revAfter := base.reverse.takeWhile (fun c => c ≠ '.')
  if base = ['.', '.'] then []
  else if revAfter.length = base.length then []
  else if revAfter.length + 1 = base.length then []
  else '.' :: revAfter.reverse

/-- Node `path.basename(p, ext)`: last path component (ignoring trailing
slashes), with the suffix `ext` removed when it matches and is strictly
shorter than the component. -/
def basenameExt (p ext : Str) : Str :=
  let base := afterLastSlash (dropTrailingSlashes p)
  if ext <:+ base ∧ ext.length < base.length then base.take (base.length - ext.length)
  else base

/-- Node `path.join` for the two-argument calls the code makes: concatenation
with `'/'`, normalising away a leading `"./"` (the only normalisation these
inputs trigger). -/
def pathJoin (a b : Str) : Str :=
  let joined := a ++ '/' :: b
  if joined.take 2 = ['.', '/'] then joined.drop 2 else joined

/-- Node `path.dirname` for the relative paths the code builds. -/
def dirname (p : Str) : Str :=
  let base := afterLastSlash p
  if base.length = p.length then ['.']
  else dropTrailingSlashes (p.take (p.length - base.length))

/-- Decimal rendering of a count, as JS template interpolation produces. -/
def natToStr (n : Nat) : Str := (toString n).data

/-- The built-in `EXCLUDED_FILES` set. -/
def EXCLUDED_FILES : List Str :=
  [str "dist", str "bun.lock", str "node_modules", str ".git", str "coverage"]

/-- `DEFAULT_OPTIONS.maxConcurrentDiffs`. -/
def maxConcurrentDiffs : Nat := 10

/-- `DEFAULT_OPTIONS.maxCommitMessageLength`. -/
def maxCommitMessageLength : Nat := 72

/-- The `FileDiff` record. -/
structure FileDiff where
  file : Str
  diff : Str
  changes : Nat
deriving DecidableEq

/-- The `GitFileStatus` record (one entry of the git diff summary). -/
structure GitFileStatus where
  file : Str
  changes : Nat
  insertions : Nat
  deletions : Nat
deriving DecidableEq

/-- One element of `commitMessageSchema.changes`: `changes` and `diff` are
optional in the schema. -/
structure ChangeInput where
  file : Str
  changes : Option Nat
  diff : Option Str
deriving DecidableEq

/-- The `CodeReviewResult` record. -/
structure CodeReviewResult where
  changes : List FileDiff
  summary : Str
  suggestions : List Str
  commitMessage : Option Str
  reportPath : Option Str
deriving DecidableEq

/-- `shouldExcludeFile`: a path is excluded when it contains or starts with
any built-in or caller-supplied pattern.  (The JS code passes the union
through a `Set`; deduplication does not change the result of `some`.) -/
def shouldExcludeFile (filePath : Str) (additionalExcludes : List Str) : Bool :=
  (EXCLUDED_FILES ++ additionalExcludes).any fun exclude =>
    jsIncludes filePath exclude || jsStartsWith filePath exclude

/-- The observable behaviour of the external simple-git interface for one
`getFileChangesInDirectory` call: repository check, diff summary (which may
fail: `Except.error` models a rejected promise), and per-file diff fetch
(`none` models a rejected promise for that file). -/
structure GitEnv where
  isRepo : Bool
  diffSummary : Except Str (List GitFileStatus)
  diff : Str → Option Str

/-- Helper for `toBatches`: `cur` holds the batch being filled, reversed. -/
def toBatchesAux (n : Nat) : List α → List α → List (List α)
  | [], cur => if cur.isEmpty then [] else [cur.reverse]
  | x :: xs, cur =>
    if n ≤ cur.length + 1 then (cur.reverse ++ [x]) :: toBatchesAux n xs []
    else toBatchesAux n xs (x :: cur)

/-- The batching loop: successive slices of size `n`, as built by
`for (let i = 0; i < length; i += n) batches.push(slice(i, i+n))`. -/
def toBatches (n : Nat) (l : List α) : List (List α) := toBatchesAux n l []

/-- Stable insertion (descending by `changes`) used to model JS `Array.sort`. -/
def insertByChangesDesc (x : FileDiff) : List FileDiff → List FileDiff
  | [] => [x]
  | y :: ys => if y.changes ≤ x.changes then x :: y :: ys else y :: insertByChangesDesc x ys

/-- JS `diffs.sort((a, b) => b.changes - a.changes)`: ECMA-262 `Array.sort`
is stable, so this is the stable sort by change count descending. -/
def sortByChangesDesc : List FileDiff → List FileDiff
  | [] => []
  | x :: xs => insertByChangesDesc x (sortByChangesDesc xs)

/-- Fetch one file's diff: a failed fetch (`none`) drops the file. -/
def fetchDiff (env : GitEnv) (f : GitFileStatus) : Option FileDiff :=
  (env.diff f.file).map fun d => { file := f.file, diff := d, changes := f.changes }

/-- The per-file part of `getFileChangesInDirectory` before sorting:
exclusion filtering, then the batched diff fetches flattened (batches run
sequentially and concatenate in order, and `Promise.all` keeps order inside
a batch, so the surviving entries keep summary order). -/
def collectDiffs (env : GitEnv) (files : List GitFileStatus) (additionalExcludes : List Str) :
    List FileDiff :=
  (files.filter fun f => !shouldExcludeFile f.file additionalExcludes).filterMap (fetchDiff env)

/-- `getFileChangesInDirectory`.  Everything runs inside one `try` whose
`catch` re-throws `"Failed to get file changes: " + message`, including the
`"Directory ... is not a git repository"` error thrown for a non-repository. -/
def getFileChangesInDirectory (env : GitEnv) (rootDir : Str) (excludePatterns : List Str) :
    Except Str (List FileDiff) :=
  if !env.isRepo then
    .error (str "Failed to get file changes: " ++
      (str "Directory " ++ rootDir ++ str " is not a git repository"))
  else
    match env.diffSummary with
    | .error e => .error (str "Failed to get file changes: " ++ e)
    | .ok files =>
      let filesToProcess := files.filter fun f => !shouldExcludeFile f.file excludePatterns
      let batches := toBatches maxConcurrentDiffs filesToProcess
      let diffs := batches.foldl (fun acc batch => acc ++ batch.filterMap (fetchDiff env)) []
      .ok (sortByChangesDesc diffs)

/-- `detectCommitType`.  Note that the test rule inspects
`path.extname(change.file)`, not the full path. -/
def detectCommitType (changes : List FileDiff) : Str :=
  let fileExtensions := changes.map fun change => extname change.file
  if fileExtensions.any (fun ext =>
      [str ".test.", str ".spec."].any fun testExt => jsIncludes ext testExt) then
    str "test"
  else if changes.any (fun change =>
      jsIncludes change.file (str "README") || jsIncludes change.file (str "docs/")) then
    str "docs"
  else if changes.any (fun change =>
      jsIncludes change.file (str "fix") || jsIncludes change.file (str "bug")) then
    str "fix"
  else
    str "feat"

/-- `generateMessageBody`. -/
def generateMessageBody (changes : List FileDiff) : Str :=
  let mainFiles := changes.filter fun change =>
    !jsIncludes change.file (str "test") &&
    !jsIncludes change.file (str "spec") &&
    !jsIncludes change.file (str "README")
  match mainFiles with
  | [] => str "update documentation and tests"
  | primaryFile :: _ =>
    let fileName := basenameExt primaryFile.file (extname primaryFile.file)
    str "update " ++ fileName ++ str " with " ++ natToStr changes.length ++ str " file" ++
      (if changes.length > 1 then str "s" else []) ++ str " changed"

/-- The composed commit message before truncation (the `commitMessage`
variable of `generateCommitMessage` right before the length check).
The destructuring default `commitType = "feat"` applies when the caller
omits the field; `commitType || detectedType` then falls back to the
detected type only for a falsy (empty) string. An empty `scope` string is
falsy, so it produces no parenthesised segment. -/
def rawCommitMessage (changes : List ChangeInput) (commitType : Option Str)
    (scope : Option Str) : Str :=
  let fileDiffs : List FileDiff := changes.map fun change =>
    { file := change.file, diff := change.diff.getD [], changes := change.changes.getD 0 }
  let detectedType := detectCommitType fileDiffs
  let commitTypeVal := commitType.getD (str "feat")
  let finalCommitType := if commitTypeVal = [] then detectedType else commitTypeVal
  let messageBody := generateMessageBody fileDiffs
  let scopeSeg := match scope with
    | some s => if s = [] then [] else '(' :: s ++ [')']
    | none => []
  finalCommitType ++ scopeSeg ++ str ": " ++ messageBody

/-- `generateCommitMessage`: empty input short-circuits to the sentinel;
otherwise the composed message, truncated to `maxCommitMessageLength` with a
`"..."` suffix when too long.  (The function's `try`/`catch` wrapper never
fires: the body is pure string manipulation.) -/
def generateCommitMessage (changes : List ChangeInput) (commitType : Option Str)
    (scope : Option Str) : Str :=
  if changes.length = 0 then str "chore: no changes detected"
  else
    let commitMessage := rawCommitMessage changes commitType scope
    if commitMessage.length > maxCommitMessageLength then
      commitMessage.take (maxCommitMessageLength - 3) ++ str "..."
    else commitMessage

/-- Helper for `firstDedup`: `seen` holds the values already emitted. -/
def firstDedupAux : List Str → List Str → List Str
  | [], _ => []
  | x :: xs, seen =>
    if x ∈ seen then firstDedupAux xs seen else x :: firstDedupAux xs (x :: seen)

/-- Insertion-order deduplication, as a JS `Set` built from an array
iterates in first-insertion order. -/
def firstDedup (l : List Str) : List Str := firstDedupAux l []

/-- JS `Array.prototype.join(sep)`. -/
def joinSep (sep : Str) : List Str → Str
  | [] => []
  | [x] => x
  | x :: y :: xs => x ++ sep ++ joinSep sep (y :: xs)

/-- `generateReviewSummary`.  `join(', ') || 'various'` substitutes
`"various"` exactly when the joined string is empty. -/
def generateReviewSummary (changes : List FileDiff) : Str :=
  let totalChanges := (changes.map (·.changes)).sum
  let fileTypes := firstDedup (changes.map fun change => extname change.file)
  let joined := joinSep (str ", ") fileTypes
  str "Reviewed " ++ natToStr changes.length ++ str " files with " ++ natToStr totalChanges ++
    str " total changes. File types: " ++ (if joined = [] then str "various" else joined)

/-- `generateSuggestions`: three independent rules in fixed order, then the
fallback exactly when the list is still empty. -/
def generateSuggestions (changes : List FileDiff) : List Str :=
  let suggestions : List Str := []
  let suggestions := if changes.any (fun change =>
      jsEndsWith change.file (str ".ts") || jsEndsWith change.file (str ".tsx")) then
    suggestions ++ [str "Consider adding TypeScript type annotations if missing"]
  else suggestions
  let suggestions := if changes.any (fun change =>
      jsIncludes change.file (str "test") || jsIncludes change.file (str "spec")) then
    suggestions ++ [str "Verify test coverage for the implemented changes"]
  else suggestions
  let suggestions := if changes.length > 5 then
    suggestions ++ [str "Consider breaking this into smaller, focused commits"]
  else suggestions
  if suggestions.length = 0 then
    suggestions ++ [str "Changes look good. Consider adding comments for complex logic"]
  else suggestions

/-- The file-system state a tool call can observe and modify: the set of
existing directories and the files with their contents. -/
structure FsState where
  dirs : List Str
  files : List (Str × Str)
deriving DecidableEq

/-- `fs.writeFile`: create or overwrite. -/
def setFile (files : List (Str × Str)) (p content : Str) : List (Str × Str) :=
  (p, content) :: files.filter fun kv => kv.1 ≠ p

/-- Content of the file at `p`, if present. -/
def lookupFile (files : List (Str × Str)) (p : Str) : Option Str :=
  (files.find? fun kv => decide (kv.1 = p)).map (·.2)

/-- `ensureDirectoryExists`: `mkdir -p` of the dirname when absent. -/
def ensureDirectoryExists (fs : FsState) (filePath : Str) : FsState :=
  let dir := dirname filePath
  if dir ∈ fs.dirs then fs else { fs with dirs := dir :: fs.dirs }

/-- `writeMarkdownReport`.  `dateStr` and `timeStr` stand for the
`new Date()` calendar-date (ISO date used in the default file name) and
locale timestamp interpolated into the document. -/
def writeMarkdownReport (fs : FsState) (reviewContent : Str)
    (outputPath fileName : Option Str) (dateStr timeStr : Str) : FsState × Str :=
  let outputPathVal := outputPath.getD (str "./code-reviews")
  let fileNameVal := fileName.getD (str "code-review-" ++ dateStr ++ str ".md")
  let fullPath := pathJoin outputPathVal fileNameVal
  let fs1 := ensureDirectoryExists fs fullPath
  let markdownContent := str "# Code Review Report\n\n**Date:** " ++ timeStr ++
    str "\n\n## Review Summary\n\n" ++ reviewContent ++
    str "\n\n---\n*Generated by Code Review Agent*"
  ({ fs1 with files := setFile fs1.files fullPath markdownContent },
   str "Markdown report saved to: " ++ fullPath)

/-- `performCodeReview`.  The `reportPath` field receives the plain return
value of `writeMarkdownReport` (the confirmation message). -/
def performCodeReview (env : GitEnv) (fs : FsState) (rootDir : Str)
    (excludePatterns : List Str) (outputReport : Bool) (dateStr timeStr : Str) :
    Except Str (FsState × CodeReviewResult) :=
  match getFileChangesInDirectory env rootDir excludePatterns with
  | .error e => .error (str "Failed to perform code review: " ++ e)
  | .ok changes =>
    if changes.length = 0 then
      .ok (fs, { changes := [], summary := str "No changes detected for review",
                 suggestions := [str "No changes to review"],
                 commitMessage := none, reportPath := none })
    else
      let commitMessageChanges : List ChangeInput := changes.map fun change =>
        { file := change.file, changes := some change.changes, diff := some change.diff }
      let commitMessage := generateCommitMessage commitMessageChanges none none
      let summary := generateReviewSummary changes
      let suggestions := generateSuggestions changes
      if outputReport then
        let reportContent := str "## Changes Summary\n" ++ summary ++
          str "\n\n## Suggestions\n" ++ joinSep (str "\n") (suggestions.map fun s => str "- " ++ s) ++
          str "\n\n## Commit Message\n`" ++ commitMessage ++ str "`"
        let wr := writeMarkdownReport fs reportContent none none dateStr timeStr
        .ok (wr.1, { changes := changes, summary := summary, suggestions := suggestions,
                     commitMessage := some commitMessage, reportPath := some wr.2 })
      else
        .ok (fs, { changes := changes, summary := summary, suggestions := suggestions,
                   commitMessage := some commitMessage, reportPath := none })

/-! ### General lemmas about the embedded operations -/

theorem jsIncludes_eq_true_iff {s sub : Str} : jsIncludes s sub = true ↔ sub <:+: s := by
  simp [jsIncludes]

theorem flatten_toBatchesAux (n : Nat) (l cur : List α) :
    (toBatchesAux n l cur).flatten = cur.reverse ++ l := by
  induction l generalizing cur with
  | nil =>
    by_cases h : cur.isEmpty
    · simp_all [toBatchesAux, List.isEmpty_iff]
    · simp [toBatchesAux, h]
  | cons x xs ih =>
    by_cases h : n ≤ cur.length + 1
    · simp [toBatchesAux, h, ih, List.append_assoc]
    · simp [toBatchesAux, h, ih]

theorem foldl_append_filterMap (g : α → Option β) (bs : List (List α)) (acc : List β) :
    bs.foldl (fun acc b => acc ++ b.filterMap g) acc = acc ++ bs.flatten.filterMap g := by
  induction bs generalizing acc with
  | nil => simp
  | cons b bs ih => simp [ih, List.filterMap_append, List.append_assoc]

theorem getFileChanges_ok {env : GitEnv} {files : List GitFileStatus} (rootDir : Str)
    (pats : List Str) (hrepo : env.isRepo = true) (hsum : env.diffSummary = .ok files) :
    getFileChangesInDirectory env rootDir pats =
      .ok (sortByChangesDesc (collectDiffs env files pats)) := by
  unfold getFileChangesInDirectory
  rw [hrepo, hsum]
  simp [toBatches, foldl_append_filterMap, flatten_toBatchesAux, collectDiffs]

theorem getFileChanges_ok_inv {env : GitEnv} {rootDir : Str} {pats : List Str}
    {out : List FileDiff} (h : getFileChangesInDirectory env rootDir pats = .ok out) :
    env.isRepo = true ∧ ∃ files, env.diffSummary = .ok files ∧
      out = sortByChangesDesc (collectDiffs env files pats) := by
  cases hrepo : env.isRepo with
  | false => rw [getFileChangesInDirectory, hrepo] at h; simp at h
  | true =>
    cases hsum : env.diffSummary with
    | error e => rw [getFileChangesInDirectory, hrepo, hsum] at h; simp at h
    | ok files =>
      refine ⟨rfl, files, rfl, ?_⟩
      rw [getFileChanges_ok rootDir pats hrepo hsum] at h
      exact (Except.ok.injEq _ _ ▸ h).symm

theorem mem_insertByChangesDesc {a x : FileDiff} {l : List FileDiff} :
    a ∈ insertByChangesDesc x l ↔ a = x ∨ a ∈ l := by
  induction l with
  | nil => simp [insertByChangesDesc]
  | cons y ys ih =>
    by_cases h : y.changes ≤ x.changes
    · simp [insertByChangesDesc, h, ih]
    · simp [insertByChangesDesc, h, ih]
      tauto

theorem mem_sortByChangesDesc {a : FileDiff} {l : List FileDiff} :
    a ∈ sortByChangesDesc l ↔ a ∈ l := by
  induction l with
  | nil => simp [sortByChangesDesc]
  | cons x xs ih => simp [sortByChangesDesc, mem_insertByChangesDesc, ih]

theorem pairwise_insertByChangesDesc {x : FileDiff} {l : List FileDiff}
    (h : l.Pairwise fun a b => b.changes ≤ a.changes) :
    (insertByChangesDesc x l).Pairwise fun a b => b.changes ≤ a.changes := by
  induction l with
  | nil => simp [insertByChangesDesc]
  | cons y ys ih =>
    rcases List.pairwise_cons.mp h with ⟨hy, hys⟩
    by_cases hle : y.changes ≤ x.changes
    · rw [insertByChangesDesc, if_pos hle]
      refine List.pairwise_cons.mpr ⟨?_, h⟩
      intro z hz
      rcases List.mem_cons.mp hz with rfl | hz
      · exact hle
      · exact le_trans (hy z hz) hle
    · rw [insertByChangesDesc, if_neg hle]
      refine List.pairwise_cons.mpr ⟨?_, ih hys⟩
      intro z hz
      rcases mem_insertByChangesDesc.mp hz with rfl | hz
      · exact le_of_lt (lt_of_not_le hle)
      · exact hy z hz

theorem pairwise_sortByChangesDesc (l : List FileDiff) :
    (sortByChangesDesc l).Pairwise fun a b => b.changes ≤ a.changes := by
  induction l with
  | nil => simp [sortByChangesDesc]
  | cons x xs ih => exact pairwise_insertByChangesDesc ih

theorem filter_changes_insertByChangesDesc (x : FileDiff) (l : List FileDiff) (n : Nat) :
    (insertByChangesDesc x l).filter (fun d => d.changes == n) =
      (x :: l).filter (fun d => d.changes == n) := by
  induction l with
  | nil => rfl
  | cons y ys ih =>
    by_cases hle : y.changes ≤ x.changes
    · rw [insertByChangesDesc, if_pos hle]
    · rw [insertByChangesDesc, if_neg hle]
      by_cases hx : x.changes = n
      · have hy : (y.changes == n) = false := by
          have hlt : x.changes < y.changes := lt_of_not_le hle
          simp only [beq_eq_false_iff_ne, ne_eq]
          omega
        simp only [List.filter_cons, hy, ih]
        simp [List.filter_cons, hy]
      · have hx' : (x.changes == n) = false := by simp [hx]
        simp only [List.filter_cons, ih]
        simp [List.filter_cons, hx']

theorem filter_changes_sortByChangesDesc (l : List FileDiff) (n : Nat) :
    (sortByChangesDesc l).filter (fun d => d.changes == n) =
      l.filter (fun d => d.changes == n) := by
  induction l with
  | nil => rfl
  | cons x xs ih =>
    rw [sortByChangesDesc, filter_changes_insertByChangesDesc, List.filter_cons,
      List.filter_cons, ih]

theorem fetchDiff_eq_some {env : GitEnv} {f : GitFileStatus} {d : FileDiff} :
    fetchDiff env f = some d ↔
      env.diff f.file = some d.diff ∧ d.file = f.file ∧ d.changes = f.changes := by
  simp only [fetchDiff, Option.map_eq_some']
  constructor
  · rintro ⟨a, ha, rfl⟩
    exact ⟨ha, rfl, rfl⟩
  · rintro ⟨ha, h1, h2⟩
    refine ⟨d.diff, ha, ?_⟩
    cases d
    simp_all

theorem mem_collectDiffs {env : GitEnv} {files : List GitFileStatus} {pats : List Str}
    {d : FileDiff} :
    d ∈ collectDiffs env files pats ↔
      ∃ f, f ∈ files ∧ shouldExcludeFile f.file pats = false ∧ fetchDiff env f = some d := by
  simp only [collectDiffs, List.mem_filterMap, List.mem_filter, Bool.not_eq_true']
  tauto

theorem extname_shape (p : Str) :
    extname p = [] ∨ ∃ t, extname p = '.' :: t ∧ '.' ∉ t := by
  simp only [extname]
  split_ifs
  · exact Or.inl rfl
  · exact Or.inl rfl
  · exact Or.inl rfl
  · refine Or.inr ⟨_, rfl, ?_⟩
    intro hmem
    have := List.mem_takeWhile_imp (List.mem_reverse.mp hmem)
    simp at this

theorem count_dot_extname_le_one (p : Str) : (extname p).count '.' ≤ 1 := by
  rcases extname_shape p with h | ⟨t, h, hmem⟩ <;> rw [h]
  · simp
  · simp [List.count_cons, List.count_eq_zero.mpr hmem]

theorem jsIncludes_extname_eq_false (p sub : Str) (h : 2 ≤ sub.count '.') :
    jsIncludes (extname p) sub = false := by
  cases hc : jsIncludes (extname p) sub
  · rfl
  · exfalso
    have hsub := jsIncludes_eq_true_iff.mp hc
    have hcount := hsub.sublist.count_le '.'
    have h1 := count_dot_extname_le_one p
    omega

/-! ### Claim theorems -/

/-- The scenario input of claim C1: `src/auth.ts` with 40 changes and
`README.md` with 2 changes, `commitType` not supplied. -/
def c1Changes : List ChangeInput :=
  [⟨str "src/auth.ts", some 40, none⟩, ⟨str "README.md", some 2, none⟩]

/-- C1: the detected commit type is never used.  The destructuring default
`commitType = "feat"` makes `commitType || detectedType` always pick the
(defaulted) `commitType`, so for the scenario input with `commitType` unset
and scope "authentication" the code returns a "feat" message even though
`detectCommitType` — computed and then discarded — yields "docs" as the spec
describes. -/
theorem c1_commit_type_detection_unused :
    generateCommitMessage c1Changes none (some (str "authentication")) =
      str "feat(authentication): update auth with 2 files changed" ∧
    detectCommitType (c1Changes.map fun c =>
      { file := c.file, diff := c.diff.getD [], changes := c.changes.getD 0 }) = str "docs" ∧
    str "feat(authentication): update auth with 2 files changed" ≠
      str "docs(authentication): update auth with 2 files changed" :=
  ⟨by decide, by decide, by decide⟩

/-- A directory that is not a git repository, as `getFileChangesInDirectory`
observes it. -/
def c2Env : GitEnv := ⟨false, .ok [], fun _ => none⟩

/-- C2 (amended): a non-repository `rootDir` does signal the
not-a-repository error, but the error is re-wrapped by the function's own
`catch` into the generic collection-failure error, carrying the
not-a-repository message as its cause. -/
theorem c2_notrepo_error_wrapped (env : GitEnv) (rootDir : Str) (pats : List Str)
    (h : env.isRepo = false) :
    getFileChangesInDirectory env rootDir pats =
      .error (str "Failed to get file changes: " ++
        (str "Directory " ++ rootDir ++ str " is not a git repository")) := by
  unfold getFileChangesInDirectory
  rw [h]
  rfl

/-- C2 witness: the amended statement at a concrete non-repository root. -/
theorem c2_notrepo_error_wrapped_witness :
    getFileChangesInDirectory c2Env (str "/tmp/notrepo") [] =
      .error (str "Failed to get file changes: " ++
        (str "Directory " ++ str "/tmp/notrepo" ++ str " is not a git repository")) :=
  c2_notrepo_error_wrapped c2Env (str "/tmp/notrepo") [] rfl

/-- C2 counterexample: for a concrete non-repository root the signaled error
is the generic collection-failure wrapping ("Failed to get file changes: ...")
and not the bare not-a-repository error, refuting the claim that the
not-a-repository condition is not re-wrapped. -/
theorem c2_notrepo_not_rewrapped_counterexample :
    getFileChangesInDirectory c2Env (str "/tmp/notrepo") [] =
      .error (str "Failed to get file changes: Directory /tmp/notrepo is not a git repository") ∧
    str "Failed to get file changes: Directory /tmp/notrepo is not a git repository" ≠
      str "Directory /tmp/notrepo is not a git repository" :=
  ⟨rfl, by decide⟩

/-- C4: `detectCommitType` never returns "test".  The test rule checks
whether an extension computed by `path.extname` contains ".test." or
".spec."; an `extname` result holds at most one dot while those markers hold
two, so the rule's condition is false for every input list. -/
theorem c4_test_branch_unreachable (changes : List FileDiff) :
    ((changes.map fun change => extname change.file).any fun ext =>
      [str ".test.", str ".spec."].any fun testExt => jsIncludes ext testExt) = false ∧
    detectCommitType changes ≠ str "test" := by
  have hany : ((changes.map fun change => extname change.file).any fun ext =>
      [str ".test.", str ".spec."].any fun testExt => jsIncludes ext testExt) = false := by
    rw [List.any_eq_false]
    intro ext hext
    rcases List.mem_map.mp hext with ⟨c, _, rfl⟩
    simp [jsIncludes_extname_eq_false _ _ (by decide : 2 ≤ (str ".test.").count '.'),
      jsIncludes_extname_eq_false _ _ (by decide : 2 ≤ (str ".spec.").count '.')]
  refine ⟨hany, ?_⟩
  simp only [detectCommitType, hany, Bool.false_eq_true, if_false]
  split_ifs <;> decide

/-- C5: every synthesized commit message has length at most 72, and whenever
the composed message before truncation exceeds 72 the returned string ends
with "..." and still has length at most 72. -/
theorem c5_commit_message_length (changes : List ChangeInput) (commitType scope : Option Str) :
    (generateCommitMessage changes commitType scope).length ≤ maxCommitMessageLength ∧
    (changes.length ≠ 0 →
      maxCommitMessageLength < (rawCommitMessage changes commitType scope).length →
      jsEndsWith (generateCommitMessage changes commitType scope) (str "...") = true ∧
      (generateCommitMessage changes commitType scope).length ≤ maxCommitMessageLength) := by
  unfold generateCommitMessage
  by_cases h0 : changes.length = 0
  · rw [if_pos h0]
    exact ⟨by decide, fun h => absurd h0 h⟩
  · rw [if_neg h0]
    by_cases hlen : (rawCommitMessage changes commitType scope).length > maxCommitMessageLength
    · rw [if_pos hlen]
      have h3 : (str "...").length = 3 := by decide
      have hlen' : 72 < (rawCommitMessage changes commitType scope).length := by
        simpa [maxCommitMessageLength] using hlen
      have hlen72 :
          ((rawCommitMessage changes commitType scope).take (maxCommitMessageLength - 3) ++
            str "...").length = 72 := by
        rw [List.length_append, List.length_take, h3]
        simp only [maxCommitMessageLength]
        omega
      refine ⟨by rw [hlen72]; simp [maxCommitMessageLength], fun _ _ => ⟨?_, ?_⟩⟩
      · simp only [jsEndsWith, decide_eq_true_eq]
        exact List.suffix_append _ _
      · rw [hlen72]
        simp [maxCommitMessageLength]
    · rw [if_neg hlen]
      exact ⟨le_of_not_lt hlen, fun _ hl => absurd hl (not_lt_of_le (le_of_not_lt hlen))⟩

/-- A single change whose long path, together with a long scope, drives the
composed commit message past 72 characters. -/
def c5Changes : List ChangeInput :=
  [⟨str "src/authentication-controller-with-long-name.ts", some 12, none⟩]

set_option maxRecDepth 40000 in
/-- C5 witness: at the concrete long input the truncation fires and the
result is a 72-bounded string ending in "...". -/
theorem c5_commit_message_length_witness :
    (generateCommitMessage c5Changes none
      (some (str "user-authentication-and-session-management"))).length ≤
        maxCommitMessageLength ∧
    jsEndsWith (generateCommitMessage c5Changes none
      (some (str "user-authentication-and-session-management"))) (str "...") = true := by
  have h := c5_commit_message_length c5Changes none
    (some (str "user-authentication-and-session-management"))
  exact ⟨h.1, (h.2 (by decide) (by decide)).1⟩

/-- C10: an empty change list short-circuits to the sentinel message,
whatever `commitType` and `scope` were supplied. -/
theorem c10_empty_changes_sentinel (commitType scope : Option Str) :
    generateCommitMessage [] commitType scope = str "chore: no changes detected" := rfl

/-- C6: a successful collection contains no path matching a built-in or
caller-supplied exclusion pattern, is sorted by change count descending, and
keeps the original reporting order among entries with equal change counts
(the entries with any fixed count appear exactly as in the order-preserving
pre-sort pipeline over the summary's file list). -/
theorem c6_collect_excludes_and_sorts (env : GitEnv) (rootDir : Str) (pats : List Str)
    (out : List FileDiff) (h : getFileChangesInDirectory env rootDir pats = .ok out) :
    (∀ d ∈ out, shouldExcludeFile d.file pats = false) ∧
    out.Pairwise (fun a b => b.changes ≤ a.changes) ∧
    (∀ files, env.diffSummary = .ok files →
      ∀ n, out.filter (fun d => d.changes == n) =
        (collectDiffs env files pats).filter (fun d => d.changes == n)) := by
  obtain ⟨hrepo, files0, hsum0, hout⟩ := getFileChanges_ok_inv h
  subst hout
  refine ⟨?_, pairwise_sortByChangesDesc _, ?_⟩
  · intro d hd
    rcases mem_collectDiffs.mp (mem_sortByChangesDesc.mp hd) with ⟨f, _, hexcl, hfd⟩
    rcases fetchDiff_eq_some.mp hfd with ⟨_, hfile, _⟩
    rw [hfile]
    exact hexcl
  · intro files hsum n
    rw [hsum0] at hsum
    injection hsum with hfe
    subst hfe
    exact filter_changes_sortByChangesDesc _ _

/-- The summary reported for the C6 witness: one excluded path and three
survivors, two of them tied on change count. -/
def c6Files : List GitFileStatus :=
  [⟨str "node_modules/pkg.js", 9, 0, 9⟩, ⟨str "a.ts", 2, 1, 1⟩,
   ⟨str "b.ts", 5, 5, 0⟩, ⟨str "c.ts", 5, 0, 5⟩]

/-- A repository whose diff summary is `c6Files` and whose per-file diff
fetches all succeed. -/
def c6Env : GitEnv := ⟨true, .ok c6Files, fun _ => some (str "d")⟩

/-- The collection the C6 witness environment produces. -/
def c6Out : List FileDiff :=
  [⟨str "b.ts", str "d", 5⟩, ⟨str "c.ts", str "d", 5⟩, ⟨str "a.ts", str "d", 2⟩]

/-- C6 witness: the theorem applied to a concrete environment with an
excluded file and a tie. -/
theorem c6_collect_excludes_and_sorts_witness :
    shouldExcludeFile (str "b.ts") [] = false ∧
    c6Out.Pairwise (fun a b => b.changes ≤ a.changes) ∧
    c6Out.filter (fun d => d.changes == 5) =
      (collectDiffs c6Env c6Files []).filter (fun d => d.changes == 5) := by
  have h := c6_collect_excludes_and_sorts c6Env (str "/repo") [] c6Out rfl
  exact ⟨h.1 ⟨str "b.ts", str "d", 5⟩ (by decide), h.2.1, h.2.2 c6Files rfl 5⟩

/-- C9: when the repository check and diff summary succeed, the collection
succeeds regardless of per-file diff failures; every returned entry carries
a successfully fetched diff, and every non-excluded summary file whose diff
fetch succeeds contributes its entry — so a single file's failure drops only
that file. -/
theorem c9_per_file_failure_tolerated (env : GitEnv) (rootDir : Str) (pats : List Str)
    (files : List GitFileStatus) (hrepo : env.isRepo = true)
    (hsum : env.diffSummary = .ok files) :
    getFileChangesInDirectory env rootDir pats =
      .ok (sortByChangesDesc (collectDiffs env files pats)) ∧
    (∀ d ∈ sortByChangesDesc (collectDiffs env files pats), env.diff d.file = some d.diff) ∧
    (∀ f ∈ files, shouldExcludeFile f.file pats = false →
      ∀ d0, env.diff f.file = some d0 →
        (⟨f.file, d0, f.changes⟩ : FileDiff) ∈ sortByChangesDesc (collectDiffs env files pats)) := by
  refine ⟨getFileChanges_ok rootDir pats hrepo hsum, ?_, ?_⟩
  · intro d hd
    rcases mem_collectDiffs.mp (mem_sortByChangesDesc.mp hd) with ⟨f, _, _, hfd⟩
    rcases fetchDiff_eq_some.mp hfd with ⟨hdiff, hfile, _⟩
    rw [hfile]
    exact hdiff
  · intro f hf hexcl d0 hd0
    exact mem_sortByChangesDesc.mpr (mem_collectDiffs.mpr
      ⟨f, hf, hexcl, fetchDiff_eq_some.mpr ⟨hd0, rfl, rfl⟩⟩)

/-- The summary for the C9 witness: two files. -/
def c9Files : List GitFileStatus := [⟨str "a.ts", 3, 2, 1⟩, ⟨str "b.ts", 7, 7, 0⟩]

/-- An environment whose diff fetch fails for `b.ts` only. -/
def c9Env : GitEnv :=
  ⟨true, .ok c9Files, fun p => if p = str "b.ts" then none else some (str "diffA")⟩

/-- C9 witness: with `b.ts`'s diff fetch failing, the collection still
succeeds, `a.ts` survives, and the result is exactly the one surviving
entry. -/
theorem c9_per_file_failure_tolerated_witness :
    getFileChangesInDirectory c9Env (str "/repo") [] =
      .ok (sortByChangesDesc (collectDiffs c9Env c9Files [])) ∧
    (⟨str "a.ts", str "diffA", 3⟩ : FileDiff) ∈ sortByChangesDesc (collectDiffs c9Env c9Files []) ∧
    sortByChangesDesc (collectDiffs c9Env c9Files []) = [⟨str "a.ts", str "diffA", 3⟩] := by
  have h := c9_per_file_failure_tolerated c9Env (str "/repo") [] c9Files rfl rfl
  exact ⟨h.1, h.2.2 ⟨str "a.ts", 3, 2, 1⟩ (by decide) (by decide) (str "diffA") (by decide),
    by decide⟩

theorem find_eq_filter_head (p : α → Bool) (l : List α) :
    l.find? p = (l.filter p).head? := by
  induction l with
  | nil => rfl
  | cons x xs ih =>
    cases h : p x
    · rw [List.find?_cons_of_neg _ (by simp [h]), List.filter_cons_of_neg (by simp [h]), ih]
    · rw [List.find?_cons_of_pos _ h, List.filter_cons_of_pos h, List.head?_cons]

/-- C7: `generateMessageBody` filters out paths containing "test", "spec" or
"README"; when nothing remains it returns the generic body, and otherwise it
names the first remaining file (base name, extension stripped) together with
the length of the full input list. -/
theorem c7_message_body (changes : List FileDiff) (_hne : changes ≠ []) :
    ((changes.all fun change => jsIncludes change.file (str "test") ||
        jsIncludes change.file (str "spec") || jsIncludes change.file (str "README")) = true →
      generateMessageBody changes = str "update documentation and tests") ∧
    (∀ first, changes.find? (fun change => !jsIncludes change.file (str "test") &&
        !jsIncludes change.file (str "spec") && !jsIncludes change.file (str "README")) =
          some first →
      generateMessageBody changes =
        str "update " ++ basenameExt first.file (extname first.file) ++ str " with " ++
          natToStr changes.length ++ str " file" ++
          (if changes.length > 1 then str "s" else []) ++ str " changed") := by
  constructor
  · intro hall
    have hfil : changes.filter (fun change => !jsIncludes change.file (str "test") &&
        !jsIncludes change.file (str "spec") && !jsIncludes change.file (str "README")) = [] := by
      rw [List.filter_eq_nil_iff]
      intro c hc
      have hor := List.all_eq_true.mp hall c hc
      cases hA : jsIncludes c.file (str "test") <;>
        cases hB : jsIncludes c.file (str "spec") <;>
          cases hC : jsIncludes c.file (str "README") <;> simp_all
    simp only [generateMessageBody, hfil]
  · intro first hfind
    rw [find_eq_filter_head] at hfind
    simp only [generateMessageBody]
    cases hq : changes.filter (fun change => !jsIncludes change.file (str "test") &&
        !jsIncludes change.file (str "spec") && !jsIncludes change.file (str "README")) with
    | nil => rw [hq] at hfind; simp at hfind
    | cons a rest =>
      rw [hq] at hfind
      simp only [List.head?_cons, Option.some.injEq] at hfind
      subst hfind
      rfl

/-- The changes for the C7 witness: a README first, then a source file. -/
def c7Changes : List FileDiff :=
  [⟨str "README.md", str "", 2⟩, ⟨str "src/auth.ts", str "", 40⟩]

/-- C7 witness: the body names the first non-test/spec/README file with its
extension stripped and counts the full list. -/
theorem c7_message_body_witness :
    generateMessageBody c7Changes = str "update auth with 2 files changed" := by
  have h := (c7_message_body c7Changes (by decide)).2 ⟨str "src/auth.ts", str "", 40⟩ (by decide)
  exact h.trans (by decide)

/-- C8: the suggestion list is never empty, and it is exactly the
concatenation of the three independent rule outputs in fixed order followed
by the generic fallback exactly when no rule fired. -/
theorem c8_suggestions_order (changes : List FileDiff) :
    generateSuggestions changes ≠ [] ∧
    generateSuggestions changes =
      (if changes.any (fun change => jsEndsWith change.file (str ".ts") ||
          jsEndsWith change.file (str ".tsx"))
        then [str "Consider adding TypeScript type annotations if missing"] else []) ++
      (if changes.any (fun change => jsIncludes change.file (str "test") ||
          jsIncludes change.file (str "spec"))
        then [str "Verify test coverage for the implemented changes"] else []) ++
      (if changes.length > 5
        then [str "Consider breaking this into smaller, focused commits"] else []) ++
      (if (changes.any (fun change => jsEndsWith change.file (str ".ts") ||
            jsEndsWith change.file (str ".tsx"))) = false ∧
          (changes.any (fun change => jsIncludes change.file (str "test") ||
            jsIncludes change.file (str "spec"))) = false ∧
          ¬ changes.length > 5
        then [str "Changes look good. Consider adding comments for complex logic"] else []) := by
  cases h1 : changes.any (fun change => jsEndsWith change.file (str ".ts") ||
      jsEndsWith change.file (str ".tsx")) <;>
    cases h2 : changes.any (fun change => jsIncludes change.file (str "test") ||
      jsIncludes change.file (str "spec")) <;>
    by_cases h3 : changes.length > 5 <;>
    simp [generateSuggestions, h1, h2, h3]

theorem lookupFile_setFile (files : List (Str × Str)) (p c : Str) :
    lookupFile (setFile files p c) p = some c := by
  unfold lookupFile setFile
  rw [List.find?_cons_of_pos _ (by simp)]
  rfl

/-- The commit message `performCodeReview` synthesizes from the collected
changes (its `commitMessage` local). -/
def reviewCommitMessage (changes : List FileDiff) : Str :=
  generateCommitMessage (changes.map fun change =>
    { file := change.file, changes := some change.changes, diff := some change.diff }) none none

/-- The report content `performCodeReview` composes (its `reportContent`
local). -/
def reviewReportContent (changes : List FileDiff) : Str :=
  str "## Changes Summary\n" ++ generateReviewSummary changes ++
  str "\n\n## Suggestions\n" ++
  joinSep (str "\n") ((generateSuggestions changes).map fun s => str "- " ++ s) ++
  str "\n\n## Commit Message\n`" ++ reviewCommitMessage changes ++ str "`"

/-- C3 (amended): with `outputReport = true` and a non-empty collection,
`performCodeReview` returns in `reportPath` the confirmation message
`"Markdown report saved to: <path>"` (not the bare path); the report file
itself exists at `<path>` and its content contains the composed summary and
the commit message. -/
theorem c3_report_path_is_confirmation_message (env : GitEnv) (fs : FsState)
    (rootDir : Str) (pats : List Str) (dateStr timeStr : Str) (files : List GitFileStatus)
    (hrepo : env.isRepo = true) (hsum : env.diffSummary = .ok files)
    (hne : sortByChangesDesc (collectDiffs env files pats) ≠ []) :
    ∃ fsr res, performCodeReview env fs rootDir pats true dateStr timeStr = .ok (fsr, res) ∧
      res.reportPath = some (str "Markdown report saved to: " ++
        pathJoin (str "./code-reviews") (str "code-review-" ++ dateStr ++ str ".md")) ∧
      ∃ content,
        lookupFile fsr.files
          (pathJoin (str "./code-reviews") (str "code-review-" ++ dateStr ++ str ".md")) =
          some content ∧
        jsIncludes content res.summary = true ∧
        (∀ cm, res.commitMessage = some cm → jsIncludes content cm = true) := by
  have hout := getFileChanges_ok rootDir pats hrepo hsum
  have hlen : ¬ (sortByChangesDesc (collectDiffs env files pats)).length = 0 := by
    simpa [List.length_eq_zero] using hne
  set outT := sortByChangesDesc (collectDiffs env files pats) with hdefout
  set fullPath := pathJoin (str "./code-reviews") (str "code-review-" ++ dateStr ++ str ".md")
    with hdefpath
  set content := str "# Code Review Report\n\n**Date:** " ++ timeStr ++
    str "\n\n## Review Summary\n\n" ++ reviewReportContent outT ++
    str "\n\n---\n*Generated by Code Review Agent*" with hdefcontent
  have key : performCodeReview env fs rootDir pats true dateStr timeStr =
      .ok (⟨(ensureDirectoryExists fs fullPath).dirs,
            setFile (ensureDirectoryExists fs fullPath).files fullPath content⟩,
           ⟨outT, generateReviewSummary outT, generateSuggestions outT,
            some (reviewCommitMessage outT),
            some (str "Markdown report saved to: " ++ fullPath)⟩) := by
    unfold performCodeReview
    rw [hout]
    simp only [hlen, ite_false, if_false, reviewCommitMessage, reviewReportContent,
      writeMarkdownReport, ensureDirectoryExists, Option.getD]
    rfl
  refine ⟨_, _, key, rfl, content, ?_, ?_, ?_⟩
  · exact lookupFile_setFile _ _ _
  · rw [jsIncludes_eq_true_iff]
    refine ⟨str "# Code Review Report\n\n**Date:** " ++ timeStr ++
      str "\n\n## Review Summary\n\n" ++ str "## Changes Summary\n",
      str "\n\n## Suggestions\n" ++
        joinSep (str "\n") ((generateSuggestions outT).map fun s => str "- " ++ s) ++
        str "\n\n## Commit Message\n`" ++ reviewCommitMessage outT ++ str "`" ++
        str "\n\n---\n*Generated by Code Review Agent*", ?_⟩
    rw [hdefcontent]
    unfold reviewReportContent
    simp [List.append_assoc]
  · intro cm hcm
    simp only [Option.some.injEq] at hcm
    subst hcm
    rw [jsIncludes_eq_true_iff]
    refine ⟨str "# Code Review Report\n\n**Date:** " ++ timeStr ++
      str "\n\n## Review Summary\n\n" ++ str "## Changes Summary\n" ++
      generateReviewSummary outT ++ str "\n\n## Suggestions\n" ++
      joinSep (str "\n") ((generateSuggestions outT).map fun s => str "- " ++ s) ++
      str "\n\n## Commit Message\n`",
      str "`" ++ str "\n\n---\n*Generated by Code Review Agent*", ?_⟩
    rw [hdefcontent]
    unfold reviewReportContent
    simp [List.append_assoc]

/-- The summary for the C3 runs: one source file. -/
def c3Files : List GitFileStatus := [⟨str "src/index.ts", 5, 3, 2⟩]

/-- A repository observing `c3Files` with diff fetches succeeding. -/
def c3Env : GitEnv := ⟨true, .ok c3Files, fun _ => some (str "dIff")⟩

/-- C3 witness: the amended statement at a concrete environment, report
requested and the file system initially empty. -/
theorem c3_report_path_witness :
    ∃ fsr res, performCodeReview c3Env ⟨[], []⟩ (str "/repo") [] true (str "2026-10-11")
        (str "noon") = .ok (fsr, res) ∧
      res.reportPath = some (str "Markdown report saved to: " ++
        pathJoin (str "./code-reviews") (str "code-review-" ++ str "2026-10-11" ++ str ".md")) ∧
      ∃ content, lookupFile fsr.files (pathJoin (str "./code-reviews")
          (str "code-review-" ++ str "2026-10-11" ++ str ".md")) = some content ∧
        jsIncludes content res.summary = true ∧
        (∀ cm, res.commitMessage = some cm → jsIncludes content cm = true) :=
  c3_report_path_is_confirmation_message c3Env ⟨[], []⟩ (str "/repo") [] (str "2026-10-11")
    (str "noon") c3Files rfl rfl (by decide)

/-- The concrete run used to refute C3 as stated. -/
def c3Run : Except Str (FsState × CodeReviewResult) :=
  performCodeReview c3Env ⟨[], []⟩ (str "/repo") [] true (str "2026-10-11") (str "noon")

set_option maxRecDepth 100000 in
/-- C3 counterexample: in the concrete run the `reportPath` field holds the
confirmation message "Markdown report saved to: ...", no file exists at that
string in the resulting file system, and the written report actually lives
at "code-reviews/code-review-2026-10-11.md" — so `reportPath` is not itself
the path at which the report file resides. -/
theorem c3_report_path_counterexample :
    c3Run.toOption.map (fun pr => pr.2.reportPath) =
      some (some (str "Markdown report saved to: code-reviews/code-review-2026-10-11.md")) ∧
    c3Run.toOption.map (fun pr => lookupFile pr.1.files
        (str "Markdown report saved to: code-reviews/code-review-2026-10-11.md")) =
      some (none : Option Str) ∧
    c3Run.toOption.map (fun pr => (lookupFile pr.1.files
        (str "code-reviews/code-review-2026-10-11.md")).isSome) = some true :=
  ⟨by decide, by decide, by decide⟩

end MyAgent
